import Mathlib

/-!
Verification development for the `ContributionDialog` component of
lucide-studio (`src/components/ContributionDialog.tsx` and
`src/components/ContributionDialog/FormStepNames.tsx`).

The component is a two-step contribution wizard.  We embed:

* the JavaScript string primitives the component uses
  (`toLowerCase`, `replaceAll`, `trim`, `replace(/[^\w]+/g, …)`,
  `split("\n")`) as functions on `List Char` / `String`;
* the zod `nameStepSchema` (checks and transform) and the branch field;
* the two `useMutation` handlers (`onNameNext`, `onSubmit`) as pure
  functions from the session and the environment's response to a list of
  performed effects plus a result, and their `onSuccess` / `onError`
  handlers as state transformers on a `DialogState`;
* the rendering dispatch on the `step` query parameter.

Strings are modelled as sequences of Unicode code points; `toLowerCase`
is modelled on the ASCII range (`A`–`Z`), which is the range on which the
component's regexes and character classes operate.
-/

/-! ## Character classes (ASCII, as used by the component's regexes) -/

/-- Lowercase ASCII letter `a`–`z` (code points 97–122). -/
def isLowerAlpha (c : Char) : Bool :=
  decide (97 ≤ c.toNat) && decide (c.toNat ≤ 122)

/-- Uppercase ASCII letter `A`–`Z` (code points 65–90). -/
def isUpperAlpha (c : Char) : Bool :=
  decide (65 ≤ c.toNat) && decide (c.toNat ≤ 90)

/-- ASCII digit `0`–`9` (code points 48–57). -/
def isDigitChar (c : Char) : Bool :=
  decide (48 ≤ c.toNat) && decide (c.toNat ≤ 57)

/-- Character admitted by the body of the name regexes: `[a-z0-9-]`
(45 is the code point of the dash). -/
def isNameBodyChar (c : Char) : Bool :=
  isLowerAlpha c || isDigitChar c || c.toNat == 45

/-- JavaScript word character `\w`, i.e. `[A-Za-z0-9_]`
(95 is the code point of the underscore). -/
def isWordChar (c : Char) : Bool :=
  isUpperAlpha c || isLowerAlpha c || isDigitChar c || c.toNat == 95

/-- Whitespace removed by JavaScript `String.prototype.trim`:
space, the control whitespace `\t`–`\r`, no-break space and the BOM. -/
def isJsWhitespace (c : Char) : Bool :=
  c.toNat == 32 || (decide (9 ≤ c.toNat) && decide (c.toNat ≤ 13)) ||
    c.toNat == 160 || c.toNat == 65279

/-! ## JavaScript string primitives on `List Char` -/

/-- `String.prototype.toLowerCase` on one character, on the ASCII range:
`A`–`Z` is shifted by 32, every other character is unchanged. -/
def jsToLowerChar (c : Char) : Char :=
  if isUpperAlpha c then Char.ofNat (c.toNat + 32) else c

/-- `s.toLowerCase()`. -/
def jsToLower (s : List Char) : List Char :=
  s.map jsToLowerChar

/-- One character of `value.replaceAll("-", " ")`: the pattern is a single
character, so the replacement is pointwise. -/
def swapDashSpace (c : Char) : Char :=
  if c.toNat == 45 then ' ' else c

/-- One character of `value.replaceAll(" ", "-")`. -/
def swapSpaceDash (c : Char) : Char :=
  if c.toNat == 32 then '-' else c

/-- `s.trim()`: drop JavaScript whitespace from both ends. -/
def jsTrim (s : List Char) : List Char :=
  (((s.dropWhile isJsWhitespace).reverse.dropWhile isJsWhitespace)).reverse

/-- Worker for `s.replace(/[^\w]+/g, " ")`.  The flag records whether the
previous character belonged to a (already replaced) run of non-word
characters, so that a maximal run produces a single space. -/
def collapseAux (inRun : Bool) : List Char → List Char
  | [] => []
  | c :: cs =>
    if isWordChar c then c :: collapseAux false cs
    else if inRun then collapseAux true cs
    else ' ' :: collapseAux true cs

/-- `s.replace(/[^\w]+/g, " ")`: every maximal run of non-word characters
becomes a single space. -/
def collapseNonWord (s : List Char) : List Char :=
  collapseAux false s

/-- The zod transform of the name field:
`value.toLowerCase().replaceAll("-", " ").trim().replaceAll(" ", "-")`. -/
def nameTransform (s : List Char) : List Char :=
  (jsTrim ((jsToLower s).map swapDashSpace)).map swapSpaceDash

/-- The `onBlur` slugification of the name input:
`value.toLowerCase().replace(/[^\w]+/g, " ").trim().replaceAll(" ", "-")`. -/
def blurSlug (s : List Char) : List Char :=
  (jsTrim (collapseNonWord (jsToLower s))).map swapSpaceDash

/-! ## The zod `nameStepSchema` -/

/-- Match of `/^[a-z][a-z0-9-]*$/`. -/
def matchesNameRegexA : List Char → Bool
  | [] => false
  | c :: cs => isLowerAlpha c && cs.all isNameBodyChar

/-- Match of the part `[a-z0-9-]*[a-z]$` of the second regex against the
rest of the string: all characters but the last are body characters and
the last is a lowercase letter. -/
def nameRegexBTail : List Char → Bool
  | [] => false
  | [c] => isLowerAlpha c
  | c :: c2 :: cs => isNameBodyChar c && nameRegexBTail (c2 :: cs)

/-- Match of `/^[a-z][a-z0-9-]*[a-z]$/`. -/
def matchesNameRegexB : List Char → Bool
  | [] => false
  | c :: cs => isLowerAlpha c && nameRegexBTail cs

/-- Issues collected by the zod checks on the name field, in schema order:
`nonempty`, `min(2)`, `max(50)`, the two regexes.  zod runs every check
and collects all failing messages. -/
def nameIssues (s : List Char) : List String :=
  (if s.length < 1 then ["Name is required."] else []) ++
  (if s.length < 2 then ["Name must be at least 2 characters long."] else []) ++
  (if 50 < s.length then ["Name must be between 2 and 50 characters long."] else []) ++
  (if !matchesNameRegexA s then
    ["Name must start with a letter and contain only letters, numbers and dashes."] else []) ++
  (if !matchesNameRegexB s then ["Name must not end with a number"] else [])

/-- Validation of the name field: when no check fails the transform is
applied to the input, otherwise the collected issues are reported. -/
def validateName (s : List Char) : Except (List String) (List Char) :=
  if nameIssues s = [] then Except.ok (nameTransform s) else Except.error (nameIssues s)

/-- Head of the string is a lowercase letter. -/
def headIsLower (s : List Char) : Bool :=
  match s.head? with
  | some c => isLowerAlpha c
  | none => false

/-- Last character of the string is a lowercase letter. -/
def lastIsLower (s : List Char) : Bool :=
  match s.getLast? with
  | some c => isLowerAlpha c
  | none => false

/-- The acceptance condition exactly as the specification states it for
the name-input step: length at most 50, starts with a lowercase letter,
ends with a lowercase letter, only lowercase letters, digits and dashes.
Stated from the specification's words, to be compared with
`validateName`, which is translated from the code. -/
def specNameCond (s : List Char) : Bool :=
  decide (s.length ≤ 50) && s.all isNameBodyChar && headIsLower s && lastIsLower s

/-! ## The `FormStepNames` schema with the optional branch field -/

/-- Input of the `FormStepNames` zod schema. -/
structure NameStepInput where
  name : List Char
  branch : Option String
deriving DecidableEq

/-- Parsed output of the `FormStepNames` zod schema. -/
structure NameStepParsed where
  name : List Char
  branch : Option String
deriving DecidableEq

/-- Issues contributed by the `branch: z.string().optional()` field: the
field attaches no runtime check, so there are none. -/
def branchIssues (_b : Option String) : List String :=
  []

/-- Validation of the `FormStepNames` schema: the name checks plus the
(empty) branch checks; on success the name is transformed and the branch
is passed through. -/
def validateNameStep (i : NameStepInput) : Except (List String) NameStepParsed :=
  if nameIssues i.name ++ branchIssues i.branch = [] then
    Except.ok { name := nameTransform i.name, branch := i.branch }
  else
    Except.error (nameIssues i.name ++ branchIssues i.branch)

/-! ## The component: state, effects and handlers -/

/-- The authenticated session user.  `login` models the value
`JSON.parse(session.data.user.image).login` that the component extracts
from the session. -/
structure SessionUser where
  login : String
deriving DecidableEq

/-- Response of the metadata lookup `GET /api/metadata/:name`. -/
structure MetaResponse where
  categories : List String
  tags : List String
  contributors : List String
deriving DecidableEq

/-- Response of `POST /api/submit` (`ok`/`text` are the fetch response
status and body text, the urls come from the decoded JSON body). -/
structure SubmitResponse where
  ok : Bool
  text : String
  pullRequestCreationUrl : String
  pullRequestExistingUrl : Option String
deriving DecidableEq

/-- The metadata form's field values (free text, one entry per line). -/
structure MetadataFormValues where
  categories : String
  tags : String
  contributors : String
deriving DecidableEq

/-- The client-side state the handlers touch: the `step` query parameter,
the `contributionDialog` open flag, the metadata form values and its
`root.serverError` message. -/
structure DialogState where
  step : String
  openDialog : Bool
  metadataValues : MetadataFormValues
  metadataServerError : Option String
deriving DecidableEq

/-- The values handed to the submit mutation: the metadata form values
plus the name from the query state. -/
structure SubmitValues where
  name : String
  categories : String
  tags : String
  contributors : String
deriving DecidableEq

/-- The JSON body of `POST /api/submit`. -/
structure SubmitBody where
  name : String
  contributors : List String
  tags : List String
  categories : List String
  value : String
deriving DecidableEq

/-- Outward-visible effects of the handlers. -/
inductive Effect where
  | signIn (provider : String)
  | fetchMetadata (name : String)
  | postSubmit (body : SubmitBody)
  | openUrl (url : String) (target : String)
deriving DecidableEq

/-- Whether an effect is an HTTP request to the backend. -/
def isHttpRequest : Effect → Bool
  | Effect.fetchMetadata _ => true
  | Effect.postSubmit _ => true
  | _ => false

/-- `field.split("\n").map((val) => val.trim())`. -/
def splitTrim (s : String) : List String :=
  (s.splitOn "\n").map (fun t => t.trim)

/-- The body built by the submit mutation: the form values spread, with
the three free-text fields replaced by their split-and-trimmed lines, and
the dialog's `value` prop. -/
def submitBody (v : SubmitValues) (value : String) : SubmitBody :=
  { name := v.name
    contributors := splitTrim v.contributors
    tags := splitTrim v.tags
    categories := splitTrim v.categories
    value := value }

/-- `mutationFn` of the name-step mutation: without a session user it
invokes `signIn("github")` and returns `undefined`; with one it fetches
`/api/metadata/:name` and returns the decoded response. -/
def onNameNextFn (user : Option SessionUser) (name : String) (resp : MetaResponse) :
    List Effect × Option MetaResponse :=
  match user with
  | none => ([Effect.signIn "github"], none)
  | some _ => ([Effect.fetchMetadata name], some resp)

/-- `mutationFn` of the submit mutation: without a session user it
invokes `signIn("github")` and returns `undefined`; with one it posts the
body and resolves with the response when its status is ok, rejecting with
the response text (non-ok status) or the network error otherwise. -/
def onSubmitFn (user : Option SessionUser) (v : SubmitValues) (value : String)
    (resp : Except String SubmitResponse) :
    List Effect × Except String (Option SubmitResponse) :=
  match user with
  | none => ([Effect.signIn "github"], Except.ok none)
  | some _ =>
    ([Effect.postSubmit (submitBody v value)],
      match resp with
      | Except.error e => Except.error e
      | Except.ok r => if r.ok then Except.ok (some r) else Except.error r.text)

/-- `[...].join("\n")`. -/
def joinLines (l : List String) : String :=
  String.intercalate "\n" l

/-- `.filter((val, idx, arr) => val && arr.indexOf(val) === idx)`: keep an
entry when it is truthy (non-empty) and this is its first occurrence. -/
def dedupeTruthy (l : List String) : List String :=
  (l.enum.filter (fun p => (!(p.2 == "")) && (l.indexOf p.2 == p.1))).map (fun p => p.2)

/-- `onSuccess` of the name-step mutation: with no data (the sign-in
path) nothing happens; otherwise each metadata field that is currently
empty is pre-filled from the response (contributors also get the session
login appended, deduplicated), and the step becomes `"metadata"`. -/
def onNameNextSuccess (data : Option MetaResponse) (login : String) (st : DialogState) :
    DialogState :=
  match data with
  | none => st
  | some d =>
    let v := st.metadataValues
    { st with
        metadataValues :=
          { categories := if v.categories = "" then joinLines d.categories else v.categories
            tags := if v.tags = "" then joinLines d.tags else v.tags
            contributors :=
              if v.contributors = "" then
                joinLines (dedupeTruthy (d.contributors ++ [login]))
              else v.contributors }
        step := "metadata" }

/-- `onError` of the name-step mutation: the contributors field is set to
the session login and the step becomes `"metadata"`. -/
def onNameNextError (login : String) (st : DialogState) : DialogState :=
  { st with
      metadataValues := { st.metadataValues with contributors := login }
      step := "metadata" }

/-- `onSuccess` of the submit mutation: with no response (the sign-in
path) nothing happens; otherwise the existing pull-request url, or else
the creation url, is opened in a new tab and the dialog is closed. -/
def submitOnSuccess (res : Option SubmitResponse) (st : DialogState) :
    DialogState × List Effect :=
  match res with
  | none => (st, [])
  | some r =>
    ({ st with openDialog := false },
      [Effect.openUrl (r.pullRequestExistingUrl.getD r.pullRequestCreationUrl) "_blank"])

/-- Fallback message of the submit error handler. -/
def submitErrorFallback : String :=
  "An error occurred while submitting the form."

/-- `onError` of the submit mutation: sets `root.serverError` on the
metadata form to the error's message, or to the fallback when the message
is empty.  Nothing else is touched. -/
def submitOnError (msg : String) (st : DialogState) : DialogState :=
  { st with metadataServerError := some (if msg = "" then submitErrorFallback else msg) }

/-- Click on the Back button of the metadata form. -/
def onBackClick (st : DialogState) : DialogState :=
  { st with step := "name" }

/-- The two forms the dialog can render. -/
inductive RenderedForm where
  | nameForm
  | metadataForm
deriving DecidableEq

/-- The rendering dispatch: `step === "name" ? (name form) : (metadata form)`. -/
def renderedForm (step : String) : RenderedForm :=
  if step = "name" then RenderedForm.nameForm else RenderedForm.metadataForm

/-- Default value of the `step` query parameter. -/
def stepQueryDefault : String :=
  "name"

/-! ## Character-level lemmas -/

theorem char_toNat_inj {a b : Char} (h : a.toNat = b.toNat) : a = b :=
  Char.eq_of_val_eq (UInt32.toNat.inj h)

theorem char_ofNat_toNat {n : Nat} (h : n < 55296) : (Char.ofNat n).toNat = n := by
  have hv : n.isValidChar := Or.inl h
  simp [Char.ofNat, Char.ofNatAux, hv, Char.toNat, UInt32.toNat, BitVec.toNat_ofNatLt]

theorem lower_isNameBody {c : Char} (h : isLowerAlpha c = true) : isNameBodyChar c = true := by
  simp [isNameBodyChar, h]

theorem nameBody_not_upper {c : Char} (h : isNameBodyChar c = true) : isUpperAlpha c = false := by
  cases hu : isUpperAlpha c
  · rfl
  · exfalso
    simp only [isNameBodyChar, isLowerAlpha, isDigitChar, isUpperAlpha, Bool.or_eq_true,
      Bool.and_eq_true, decide_eq_true_eq, beq_iff_eq] at h hu
    omega

theorem jsToLowerChar_eq_self {c : Char} (h : isUpperAlpha c = false) : jsToLowerChar c = c := by
  simp [jsToLowerChar, h]

theorem jsToLowerChar_not_upper (c : Char) : isUpperAlpha (jsToLowerChar c) = false := by
  by_cases h : isUpperAlpha c = true
  · have hle : c.toNat ≤ 90 := by
      simp only [isUpperAlpha, Bool.and_eq_true, decide_eq_true_eq] at h
      exact h.2
    have hge : 65 ≤ c.toNat := by
      simp only [isUpperAlpha, Bool.and_eq_true, decide_eq_true_eq] at h
      exact h.1
    have hval : (Char.ofNat (c.toNat + 32)).toNat = c.toNat + 32 :=
      char_ofNat_toNat (by omega)
    rw [jsToLowerChar, if_pos h]
    cases hu : isUpperAlpha (Char.ofNat (c.toNat + 32))
    · rfl
    · exfalso
      simp only [isUpperAlpha, Bool.and_eq_true, decide_eq_true_eq, hval] at hu
      omega
  · simp only [Bool.not_eq_true] at h
    rw [jsToLowerChar_eq_self h]
    exact h

theorem mem_jsToLower_not_upper {s : List Char} {c : Char} (h : c ∈ jsToLower s) :
    isUpperAlpha c = false := by
  simp only [jsToLower, List.mem_map] at h
  obtain ⟨c0, _, rfl⟩ := h
  exact jsToLowerChar_not_upper c0

theorem map_id_of_mem {α : Type} {f : α → α} {l : List α} (h : ∀ c ∈ l, f c = c) :
    l.map f = l := by
  induction l with
  | nil => rfl
  | cons a as ih =>
    simp only [List.map_cons, h a (List.mem_cons_self a as),
      ih (fun c hc => h c (List.mem_cons_of_mem a hc))]

/-! ## The name regexes -/

theorem nameRegexBTail_iff (cs : List Char) :
    nameRegexBTail cs = true ↔
      (cs ≠ [] ∧ cs.all isNameBodyChar = true ∧ lastIsLower cs = true) := by
  match cs with
  | [] => simp [nameRegexBTail]
  | [c] =>
    have h1 : nameRegexBTail [c] = isLowerAlpha c := rfl
    have h2 : lastIsLower [c] = isLowerAlpha c := by
      simp [lastIsLower, List.getLast?_singleton]
    rw [h1]
    constructor
    · intro h
      refine ⟨by simp, ?_, by rw [h2]; exact h⟩
      simp only [List.all_cons, List.all_nil, Bool.and_true]
      exact lower_isNameBody h
    · intro h
      rw [← h2]
      exact h.2.2
  | c :: c2 :: cs2 =>
    have ih := nameRegexBTail_iff (c2 :: cs2)
    have h1 : nameRegexBTail (c :: c2 :: cs2) =
        (isNameBodyChar c && nameRegexBTail (c2 :: cs2)) := rfl
    have h2 : lastIsLower (c :: c2 :: cs2) = lastIsLower (c2 :: cs2) := by
      simp [lastIsLower, List.getLast?_cons_cons]
    rw [h1, Bool.and_eq_true, ih, h2]
    constructor
    · rintro ⟨hc, _, hall, hlast⟩
      refine ⟨by simp, ?_, hlast⟩
      simp only [List.all_cons, Bool.and_eq_true] at hall ⊢
      exact ⟨hc, hall⟩
    · rintro ⟨_, hall, hlast⟩
      simp only [List.all_cons, Bool.and_eq_true] at hall
      exact ⟨hall.1, by simp, by
        simp only [List.all_cons, Bool.and_eq_true]
        exact hall.2, hlast⟩

theorem matchesNameRegexB_iff (s : List Char) :
    matchesNameRegexB s = true ↔
      (2 ≤ s.length ∧ s.all isNameBodyChar = true ∧ headIsLower s = true ∧
        lastIsLower s = true) := by
  match s with
  | [] => simp [matchesNameRegexB]
  | c :: cs =>
    simp only [matchesNameRegexB, Bool.and_eq_true, nameRegexBTail_iff, headIsLower,
      List.head?_cons, List.all_cons, List.length_cons]
    constructor
    · intro h
      obtain ⟨hc, hne, hall, hlast⟩ := h
      refine ⟨?_, ⟨lower_isNameBody hc, hall⟩, hc, ?_⟩
      · have : cs.length ≠ 0 := fun h0 => hne (List.length_eq_zero.mp h0)
        omega
      · match cs, hne with
        | c2 :: cs2, _ =>
          simpa [lastIsLower, List.getLast?_cons_cons] using hlast
    · intro h
      obtain ⟨hlen, ⟨_, hall⟩, hc, hlast⟩ := h
      refine ⟨hc, ?_, hall, ?_⟩
      · intro h0
        subst h0
        simp at hlen
      · match cs, hlen with
        | c2 :: cs2, _ =>
          simpa [lastIsLower, List.getLast?_cons_cons] using hlast

theorem matchesNameRegexA_of_conds {s : List Char} (hh : headIsLower s = true)
    (hall : s.all isNameBodyChar = true) : matchesNameRegexA s = true := by
  match s with
  | [] => simp [headIsLower] at hh
  | c :: cs =>
    simp only [headIsLower, List.head?_cons] at hh
    simp only [List.all_cons, Bool.and_eq_true] at hall
    simp [matchesNameRegexA, hh, hall.2]

theorem nameIssues_eq_nil_iff (s : List Char) :
    nameIssues s = [] ↔
      (1 ≤ s.length ∧ 2 ≤ s.length ∧ s.length ≤ 50 ∧
        matchesNameRegexA s = true ∧ matchesNameRegexB s = true) := by
  unfold nameIssues
  split_ifs with h1 h2 h3 h4 h5 <;>
    (simp_all [Bool.not_eq_true']; try omega)

/-! ## C1: the name validation against the spec's acceptance condition -/

theorem specNameCond_iff (s : List Char) :
    specNameCond s = true ↔
      (s.length ≤ 50 ∧ s.all isNameBodyChar = true ∧ headIsLower s = true ∧
        lastIsLower s = true) := by
  simp [specNameCond, Bool.and_eq_true, and_assoc]

theorem validateName_isOk_iff (s : List Char) :
    (validateName s).isOk = true ↔ nameIssues s = [] := by
  by_cases h : nameIssues s = [] <;> simp [validateName, h, Except.isOk, Except.toBool]

/-- C1 (as amended): the name-input validation accepts exactly the strings
of length between 2 and 50 that start and end with a lowercase letter and
contain only lowercase letters, digits and dashes; every other string is
rejected with at least one error message. -/
theorem claimC1_spec (s : List Char) :
    ((validateName s).isOk = true ↔ (2 ≤ s.length ∧ specNameCond s = true)) ∧
    (¬(2 ≤ s.length ∧ specNameCond s = true) →
      validateName s = Except.error (nameIssues s) ∧ nameIssues s ≠ []) := by
  have hiff : (validateName s).isOk = true ↔ (2 ≤ s.length ∧ specNameCond s = true) := by
    rw [validateName_isOk_iff, nameIssues_eq_nil_iff, specNameCond_iff]
    constructor
    · rintro ⟨_, h2, h50, _, hB⟩
      have hb := (matchesNameRegexB_iff s).mp hB
      exact ⟨h2, h50, hb.2.1, hb.2.2.1, hb.2.2.2⟩
    · rintro ⟨h2, h50, hall, hh, hl⟩
      refine ⟨by omega, h2, h50, matchesNameRegexA_of_conds hh hall, ?_⟩
      exact (matchesNameRegexB_iff s).mpr ⟨h2, hall, hh, hl⟩
  refine ⟨hiff, fun h => ?_⟩
  have hne : nameIssues s ≠ [] := by
    intro h0
    exact h (hiff.mp (by simp [validateName, h0, Except.isOk, Except.toBool]))
  exact ⟨by simp [validateName, hne], hne⟩

/-- C1 counterexample: the single letter `"a"` satisfies every condition
the claim lists (length at most 50, starts and ends with a lowercase
letter, only allowed characters), yet the schema rejects it — starting
and ending with a lowercase letter does not entail length at least 2. -/
theorem claimC1_counterexample :
    specNameCond ['a'] = true ∧ (validateName ['a']).isOk = false := by
  decide

/-- C1 witness: `"ab"` is accepted, `"a"` is rejected with messages. -/
theorem claimC1_witness :
    (validateName ['a', 'b']).isOk = true ∧
    validateName ['a'] = Except.error (nameIssues ['a']) ∧ nameIssues ['a'] ≠ [] :=
  ⟨(claimC1_spec ['a', 'b']).1.mpr ⟨by decide, by decide⟩,
    (claimC1_spec ['a']).2 (by decide)⟩

/-! ## Trim lemmas -/

theorem dropWhile_eq_self_of_head {p : Char → Bool} {l : List Char}
    (h : ∀ c, l.head? = some c → p c = false) : l.dropWhile p = l := by
  cases l with
  | nil => rfl
  | cons a as =>
    rw [List.dropWhile_cons, if_neg]
    simp [h a rfl]

theorem jsTrim_eq_self {l : List Char}
    (hh : ∀ c, l.head? = some c → isJsWhitespace c = false)
    (hl : ∀ c, l.getLast? = some c → isJsWhitespace c = false) :
    jsTrim l = l := by
  have h1 : l.dropWhile isJsWhitespace = l := dropWhile_eq_self_of_head hh
  have h2 : l.reverse.dropWhile isJsWhitespace = l.reverse := by
    refine dropWhile_eq_self_of_head (fun c hc => ?_)
    rw [List.head?_reverse] at hc
    exact hl c hc
  rw [jsTrim, h1, h2, List.reverse_reverse]

theorem head?_dropWhile_false {p : Char → Bool} {l : List Char} {c : Char}
    (h : (l.dropWhile p).head? = some c) : p c = false := by
  have := List.head?_dropWhile_not p l
  rw [h] at this
  exact this

theorem prefix_head? {l m : List Char} {c : Char} (hp : l <+: m) (h : l.head? = some c) :
    m.head? = some c := by
  obtain ⟨t, rfl⟩ := hp
  cases l with
  | nil => simp at h
  | cons a as => simpa using h

theorem jsTrim_within (l : List Char) : jsTrim l <:+: l := by
  have s1 : l.dropWhile isJsWhitespace <:+ l := List.dropWhile_suffix isJsWhitespace
  have s2 : (l.dropWhile isJsWhitespace).reverse.dropWhile isJsWhitespace <:+
      (l.dropWhile isJsWhitespace).reverse := List.dropWhile_suffix isJsWhitespace
  have s3 : jsTrim l <+: l.dropWhile isJsWhitespace := by
    refine List.reverse_suffix.mp ?_
    rw [jsTrim]
    rwa [List.reverse_reverse]
  exact s3.isInfix.trans s1.isInfix

theorem jsTrim_head_not_ws {l : List Char} {c : Char} (h : (jsTrim l).head? = some c) :
    isJsWhitespace c = false := by
  have s3 : jsTrim l <+: l.dropWhile isJsWhitespace := by
    refine List.reverse_suffix.mp ?_
    rw [jsTrim]
    rw [List.reverse_reverse]
    exact List.dropWhile_suffix isJsWhitespace
  exact head?_dropWhile_false (prefix_head? s3 h)

theorem jsTrim_getLast_not_ws {l : List Char} {c : Char} (h : (jsTrim l).getLast? = some c) :
    isJsWhitespace c = false := by
  rw [jsTrim, List.getLast?_reverse] at h
  exact head?_dropWhile_false h

theorem jsTrim_idem (l : List Char) : jsTrim (jsTrim l) = jsTrim l :=
  jsTrim_eq_self (fun _ hc => jsTrim_head_not_ws hc) (fun _ hc => jsTrim_getLast_not_ws hc)

/-! ## C6: the zod transform is the identity on accepted names -/

theorem swapDashSpace_eq_self {c : Char} (h : c.toNat ≠ 45) : swapDashSpace c = c := by
  simp [swapDashSpace, h]

theorem swapSpaceDash_eq_self {c : Char} (h : c.toNat ≠ 32) : swapSpaceDash c = c := by
  simp [swapSpaceDash, h]

theorem lower_toNat {c : Char} (h : isLowerAlpha c = true) :
    97 ≤ c.toNat ∧ c.toNat ≤ 122 := by
  simpa [isLowerAlpha, Bool.and_eq_true, decide_eq_true_eq] using h

theorem nameBody_toNat {c : Char} (h : isNameBodyChar c = true) :
    (97 ≤ c.toNat ∧ c.toNat ≤ 122) ∨ (48 ≤ c.toNat ∧ c.toNat ≤ 57) ∨ c.toNat = 45 := by
  simpa [isNameBodyChar, isLowerAlpha, isDigitChar, Bool.or_eq_true, Bool.and_eq_true,
    decide_eq_true_eq, beq_iff_eq, or_assoc] using h

theorem lower_not_ws {c : Char} (h : isLowerAlpha c = true) : isJsWhitespace c = false := by
  have := lower_toNat h
  simp only [isJsWhitespace, Bool.or_eq_false_iff, Bool.and_eq_false_iff,
    decide_eq_false_iff_not, beq_eq_false_iff_ne, ne_eq]
  omega

/-- C6: the schema's transform (lowercase, dashes to spaces, trim, spaces
to dashes) maps every string that starts and ends with a lowercase letter
and contains only lowercase letters, digits and dashes — in particular
every string the validation accepts — to itself. -/
theorem claimC6_spec (s : List Char) (hall : s.all isNameBodyChar = true)
    (hh : headIsLower s = true) (hl : lastIsLower s = true) :
    nameTransform s = s := by
  have hmem : ∀ c ∈ s, isNameBodyChar c = true := by
    simpa [List.all_eq_true] using hall
  have hlow : jsToLower s = s := by
    refine map_id_of_mem (fun c hc => ?_)
    exact jsToLowerChar_eq_self (nameBody_not_upper (hmem c hc))
  rw [nameTransform, hlow]
  have htrim : jsTrim (s.map swapDashSpace) = s.map swapDashSpace := by
    refine jsTrim_eq_self (fun c hc => ?_) (fun c hc => ?_)
    · rw [List.head?_map] at hc
      cases hs : s.head? with
      | none => rw [hs] at hc; simp at hc
      | some c0 =>
        rw [hs] at hc
        simp only [Option.map_some'] at hc
        have hc0 : isLowerAlpha c0 = true := by
          simpa [headIsLower, hs] using hh
        have := lower_toNat hc0
        have hid : swapDashSpace c0 = c0 := swapDashSpace_eq_self (by omega)
        rw [hid] at hc
        cases hc
        exact lower_not_ws hc0
    · rw [List.getLast?_map] at hc
      cases hs : s.getLast? with
      | none => rw [hs] at hc; simp at hc
      | some c0 =>
        rw [hs] at hc
        simp only [Option.map_some'] at hc
        have hc0 : isLowerAlpha c0 = true := by
          simpa [lastIsLower, hs] using hl
        have := lower_toNat hc0
        have hid : swapDashSpace c0 = c0 := swapDashSpace_eq_self (by omega)
        rw [hid] at hc
        cases hc
        exact lower_not_ws hc0
  rw [htrim, List.map_map]
  refine map_id_of_mem (fun c hc => ?_)
  rcases nameBody_toNat (hmem c hc) with h | h | h
  · simp only [Function.comp_apply]
    rw [swapDashSpace_eq_self (by omega), swapSpaceDash_eq_self (by omega)]
  · simp only [Function.comp_apply]
    rw [swapDashSpace_eq_self (by omega), swapSpaceDash_eq_self (by omega)]
  · have hc45 : c = '-' := char_toNat_inj (by simpa using h)
    subst hc45
    simp only [Function.comp_apply]
    have h1 : swapDashSpace '-' = ' ' := by decide
    have h2 : swapSpaceDash ' ' = '-' := by decide
    rw [h1, h2]

/-- C6 witness: the transform fixes the accepted name `"a-b"`. -/
theorem claimC6_witness : nameTransform ['a', '-', 'b'] = ['a', '-', 'b'] :=
  claimC6_spec ['a', '-', 'b'] (by decide) (by decide) (by decide)

/-! ## C7: the blur-time slugification -/

theorem word_toNat {c : Char} (h : isWordChar c = true) :
    (65 ≤ c.toNat ∧ c.toNat ≤ 90) ∨ (97 ≤ c.toNat ∧ c.toNat ≤ 122) ∨
      (48 ≤ c.toNat ∧ c.toNat ≤ 57) ∨ c.toNat = 95 := by
  simpa [isWordChar, isUpperAlpha, isLowerAlpha, isDigitChar, Bool.or_eq_true,
    Bool.and_eq_true, decide_eq_true_eq, beq_iff_eq, or_assoc] using h

theorem word_of_toNat {c : Char}
    (h : (97 ≤ c.toNat ∧ c.toNat ≤ 122) ∨ (48 ≤ c.toNat ∧ c.toNat ≤ 57) ∨ c.toNat = 95) :
    isWordChar c = true := by
  simp only [isWordChar, isUpperAlpha, isLowerAlpha, isDigitChar, Bool.or_eq_true,
    Bool.and_eq_true, decide_eq_true_eq, beq_iff_eq]
  omega

theorem upper_toNat_false {c : Char} (h : isUpperAlpha c = false) :
    ¬(65 ≤ c.toNat ∧ c.toNat ≤ 90) := by
  simpa [isUpperAlpha, Bool.and_eq_false_iff, decide_eq_false_iff_not] using h

theorem mem_of_head?_eq {l : List Char} {c : Char} (h : l.head? = some c) : c ∈ l := by
  cases l with
  | nil => simp at h
  | cons a as =>
    simp only [List.head?_cons, Option.some.injEq] at h
    subst h
    exact List.mem_cons_self a as

theorem mem_of_getLast?_eq {l : List Char} {c : Char} (h : l.getLast? = some c) : c ∈ l := by
  have hr : l.reverse.head? = some c := by rwa [List.head?_reverse]
  have := mem_of_head?_eq hr
  simpa using this

theorem collapseAux_mem {l : List Char} {b : Bool} {c : Char} (hc : c ∈ collapseAux b l) :
    c = ' ' ∨ (isWordChar c = true ∧ c ∈ l) := by
  induction l generalizing b with
  | nil => simp [collapseAux] at hc
  | cons a as ih =>
    by_cases hw : isWordChar a = true
    · simp only [collapseAux, hw, if_true] at hc
      rcases List.mem_cons.mp hc with rfl | hc2
      · exact Or.inr ⟨hw, List.mem_cons_self c as⟩
      · rcases ih hc2 with h | ⟨h1, h2⟩
        · exact Or.inl h
        · exact Or.inr ⟨h1, List.mem_cons_of_mem a h2⟩
    · simp only [collapseAux, hw, if_false, Bool.not_eq_true] at hc
      cases b with
      | true =>
        simp only [if_true] at hc
        rcases ih hc with h | ⟨h1, h2⟩
        · exact Or.inl h
        · exact Or.inr ⟨h1, List.mem_cons_of_mem a h2⟩
      | false =>
        simp only [if_false, Bool.false_eq_true] at hc
        rcases List.mem_cons.mp hc with rfl | hc2
        · exact Or.inl rfl
        · rcases ih hc2 with h | ⟨h1, h2⟩
          · exact Or.inl h
          · exact Or.inr ⟨h1, List.mem_cons_of_mem a h2⟩

theorem collapseAux_true_head {l : List Char} {c : Char}
    (hc : (collapseAux true l).head? = some c) : c ≠ ' ' := by
  induction l with
  | nil => simp [collapseAux] at hc
  | cons a as ih =>
    by_cases hw : isWordChar a = true
    · simp only [collapseAux, hw, if_true, List.head?_cons, Option.some.injEq] at hc
      subst hc
      intro h
      rw [h] at hw
      exact absurd hw (by decide)
    · simp only [collapseAux, hw, if_false, Bool.not_eq_true, if_true] at hc
      exact ih hc

theorem collapseAux_chain (l : List Char) (b : Bool) :
    List.Chain' (fun x y : Char => ¬(x = ' ' ∧ y = ' ')) (collapseAux b l) := by
  induction l generalizing b with
  | nil => simp [collapseAux]
  | cons a as ih =>
    by_cases hw : isWordChar a = true
    · simp only [collapseAux, hw, if_true]
      refine List.chain'_cons'.mpr ⟨?_, ih false⟩
      intro y _ hcon
      rw [hcon.1] at hw
      exact absurd hw (by decide)
    · simp only [collapseAux, hw, if_false, Bool.not_eq_true]
      cases b with
      | true =>
        simp only [if_true]
        exact ih true
      | false =>
        simp only [if_false, Bool.false_eq_true]
        refine List.chain'_cons'.mpr ⟨?_, ih true⟩
        intro y hy hcon
        exact collapseAux_true_head (Option.mem_def.mp hy) hcon.2

theorem chain_imp_mem {l : List Char} {R S : Char → Char → Prop}
    (h : ∀ a ∈ l, ∀ b ∈ l, R a b → S a b) (hc : List.Chain' R l) : List.Chain' S l := by
  induction l with
  | nil => simp
  | cons a as ih =>
    rw [List.chain'_cons'] at hc ⊢
    refine ⟨?_, ?_⟩
    · intro y hy
      have hya : y ∈ as := by
        cases as with
        | nil => simp at hy
        | cons a2 as2 =>
          simp only [List.head?_cons, Option.mem_def, Option.some.injEq] at hy
          subst hy
          exact List.mem_cons_self a2 as2
      exact h a (List.mem_cons_self a as) y (List.mem_cons_of_mem a hya) (hc.1 y hy)
    · refine ih (fun x hx y hy => ?_) hc.2
      exact h x (List.mem_cons_of_mem a hx) y (List.mem_cons_of_mem a hy)

/-- Characters of the trimmed collapse stage: a space, or a non-uppercase
word character. -/
theorem trimmed_chars {s : List Char} {c : Char}
    (hc : c ∈ jsTrim (collapseNonWord (jsToLower s))) :
    c = ' ' ∨ (isWordChar c = true ∧ isUpperAlpha c = false) := by
  have hc2 : c ∈ collapseNonWord (jsToLower s) :=
    (jsTrim_within (collapseNonWord (jsToLower s))).subset hc
  rcases collapseAux_mem hc2 with h | ⟨h1, h2⟩
  · exact Or.inl h
  · exact Or.inr ⟨h1, mem_jsToLower_not_upper h2⟩

theorem blurSlug_chars_toNat {s : List Char} {c : Char} (hc : c ∈ blurSlug s) :
    (97 ≤ c.toNat ∧ c.toNat ≤ 122) ∨ (48 ≤ c.toNat ∧ c.toNat ≤ 57) ∨
      c.toNat = 95 ∨ c.toNat = 45 := by
  simp only [blurSlug, List.mem_map] at hc
  obtain ⟨c0, hc0, rfl⟩ := hc
  rcases trimmed_chars hc0 with rfl | ⟨hw, hu⟩
  · right; right; right
    decide
  · have hr := word_toNat hw
    have hnu := upper_toNat_false hu
    have h32 : c0.toNat ≠ 32 := by omega
    rw [swapSpaceDash_eq_self h32]
    omega

theorem blurSlug_head_not_dash {s : List Char} {c : Char}
    (h : (blurSlug s).head? = some c) : c ≠ '-' := by
  rw [blurSlug, List.head?_map] at h
  cases ht : (jsTrim (collapseNonWord (jsToLower s))).head? with
  | none => rw [ht] at h; simp at h
  | some c0 =>
    rw [ht] at h
    simp only [Option.map_some', Option.some.injEq] at h
    have hws : isJsWhitespace c0 = false := jsTrim_head_not_ws ht
    have h32 : c0.toNat ≠ 32 := by
      intro h0
      rw [show c0 = ' ' from char_toNat_inj (by simpa using h0)] at hws
      exact absurd hws (by decide)
    rw [swapSpaceDash_eq_self h32] at h
    subst h
    rcases trimmed_chars (mem_of_head?_eq ht) with rfl | ⟨hw, _⟩
    · simp at h32
    · intro hd
      rw [hd] at hw
      exact absurd hw (by decide)

theorem blurSlug_getLast_not_dash {s : List Char} {c : Char}
    (h : (blurSlug s).getLast? = some c) : c ≠ '-' := by
  rw [blurSlug, List.getLast?_map] at h
  cases ht : (jsTrim (collapseNonWord (jsToLower s))).getLast? with
  | none => rw [ht] at h; simp at h
  | some c0 =>
    rw [ht] at h
    simp only [Option.map_some', Option.some.injEq] at h
    have hws : isJsWhitespace c0 = false := jsTrim_getLast_not_ws ht
    have h32 : c0.toNat ≠ 32 := by
      intro h0
      rw [show c0 = ' ' from char_toNat_inj (by simpa using h0)] at hws
      exact absurd hws (by decide)
    rw [swapSpaceDash_eq_self h32] at h
    subst h
    rcases trimmed_chars (mem_of_getLast?_eq ht) with rfl | ⟨hw, _⟩
    · simp at h32
    · intro hd
      rw [hd] at hw
      exact absurd hw (by decide)

theorem blurSlug_chain (s : List Char) :
    List.Chain' (fun x y : Char => ¬(x = '-' ∧ y = '-')) (blurSlug s) := by
  have hchain : List.Chain' (fun x y : Char => ¬(x = ' ' ∧ y = ' '))
      (jsTrim (collapseNonWord (jsToLower s))) :=
    List.Chain'.infix (collapseAux_chain (jsToLower s) false)
      (jsTrim_within (collapseNonWord (jsToLower s)))
  rw [blurSlug, List.chain'_map]
  refine chain_imp_mem (fun a ha y hy hr => ?_) hchain
  intro hcon
  have hsp : ∀ z ∈ jsTrim (collapseNonWord (jsToLower s)),
      swapSpaceDash z = '-' → z = ' ' := by
    intro z hz hzd
    rcases trimmed_chars hz with rfl | ⟨hw, _⟩
    · rfl
    · exfalso
      have hr2 := word_toNat hw
      have h32 : z.toNat ≠ 32 := by omega
      rw [swapSpaceDash_eq_self h32] at hzd
      rw [hzd] at hw
      exact absurd hw (by decide)
  exact hr ⟨hsp a ha hcon.1, hsp y hy hcon.2⟩

theorem collapseAux_sep (l : List Char)
    (hcs : ∀ c ∈ l, isWordChar c = true ∨ c = '-')
    (hch : List.Chain' (fun x y : Char => ¬(x = '-' ∧ y = '-')) l) :
    collapseAux false l = l.map swapDashSpace ∧
      ((∀ c, l.head? = some c → c ≠ '-') → collapseAux true l = l.map swapDashSpace) := by
  induction l with
  | nil => exact ⟨rfl, fun _ => rfl⟩
  | cons a as ih =>
    have hcs2 : ∀ c ∈ as, isWordChar c = true ∨ c = '-' :=
      fun c hc => hcs c (List.mem_cons_of_mem a hc)
    have hch2 : List.Chain' (fun x y : Char => ¬(x = '-' ∧ y = '-')) as := hch.tail
    have ih2 := ih hcs2 hch2
    rcases hcs a (List.mem_cons_self a as) with hw | rfl
    · have hid : swapDashSpace a = a := by
        have hr := word_toNat hw
        exact swapDashSpace_eq_self (by omega)
      constructor
      · simp only [collapseAux, hw, if_true, List.map_cons, hid, ih2.1]
      · intro _
        simp only [collapseAux, hw, if_true, List.map_cons, hid, ih2.1]
    · have hw : isWordChar '-' = false := by decide
      have hhd : ∀ c, as.head? = some c → c ≠ '-' := by
        intro c hc hcd
        subst hcd
        have := List.chain'_cons'.mp hch
        exact this.1 '-' (Option.mem_def.mpr hc) ⟨rfl, rfl⟩
      constructor
      · simp only [collapseAux, hw, if_false, Bool.false_eq_true, List.map_cons]
        have hsp : swapDashSpace '-' = ' ' := by decide
        rw [hsp, ih2.2 hhd]
      · intro hcontra
        exact absurd rfl (hcontra '-' (by simp))

theorem blurSlug_idem (s : List Char) : blurSlug (blurSlug s) = blurSlug s := by
  have hu : blurSlug s =
      (jsTrim (collapseNonWord (jsToLower s))).map swapSpaceDash := rfl
  have h1 : jsToLower (blurSlug s) = blurSlug s := by
    refine map_id_of_mem (fun c hc => ?_)
    refine jsToLowerChar_eq_self ?_
    have hr := blurSlug_chars_toNat hc
    cases hup : isUpperAlpha c
    · rfl
    · exfalso
      simp only [isUpperAlpha, Bool.and_eq_true, decide_eq_true_eq] at hup
      omega
  have hcs : ∀ c ∈ blurSlug s, isWordChar c = true ∨ c = '-' := by
    intro c hc
    rcases blurSlug_chars_toNat hc with h | h | h | h
    · exact Or.inl (word_of_toNat (Or.inl h))
    · exact Or.inl (word_of_toNat (Or.inr (Or.inl h)))
    · exact Or.inl (word_of_toNat (Or.inr (Or.inr h)))
    · exact Or.inr (char_toNat_inj (by simpa using h))
  have h2 : collapseAux false (blurSlug s) = (blurSlug s).map swapDashSpace :=
    (collapseAux_sep (blurSlug s) hcs (blurSlug_chain s)).1
  have h3 : (blurSlug s).map swapDashSpace = jsTrim (collapseNonWord (jsToLower s)) := by
    rw [hu, List.map_map]
    refine map_id_of_mem (fun c hc => ?_)
    rcases trimmed_chars hc with rfl | ⟨hw, _⟩
    · simp only [Function.comp_apply]
      have e1 : swapSpaceDash ' ' = '-' := by decide
      have e2 : swapDashSpace '-' = ' ' := by decide
      rw [e1, e2]
    · have hr := word_toNat hw
      simp only [Function.comp_apply]
      rw [swapSpaceDash_eq_self (by omega), swapDashSpace_eq_self (by omega)]
  calc blurSlug (blurSlug s)
      = (jsTrim (collapseNonWord (jsToLower (blurSlug s)))).map swapSpaceDash := rfl
    _ = (jsTrim (collapseAux false (blurSlug s))).map swapSpaceDash := by rw [h1]; rfl
    _ = (jsTrim (jsTrim (collapseNonWord (jsToLower s)))).map swapSpaceDash := by
        rw [h2, h3]
    _ = (jsTrim (collapseNonWord (jsToLower s))).map swapSpaceDash := by
        rw [jsTrim_idem]
    _ = blurSlug s := rfl

/-- C7: the blur-time slugification is idempotent, its output contains
only lowercase letters, digits, underscores and dashes, and the output
neither starts nor ends with a dash. -/
theorem claimC7_spec (s : List Char) :
    blurSlug (blurSlug s) = blurSlug s ∧
    (∀ c ∈ blurSlug s,
      isLowerAlpha c = true ∨ isDigitChar c = true ∨ c = '_' ∨ c = '-') ∧
    (blurSlug s).head? ≠ some '-' ∧
    (blurSlug s).getLast? ≠ some '-' := by
  refine ⟨blurSlug_idem s, ?_, ?_, ?_⟩
  · intro c hc
    rcases blurSlug_chars_toNat hc with h | h | h | h
    · left
      simp only [isLowerAlpha, Bool.and_eq_true, decide_eq_true_eq]
      omega
    · right; left
      simp only [isDigitChar, Bool.and_eq_true, decide_eq_true_eq]
      omega
    · right; right; left
      exact char_toNat_inj (by simpa using h)
    · right; right; right
      exact char_toNat_inj (by simpa using h)
  · intro h
    exact blurSlug_head_not_dash h rfl
  · intro h
    exact blurSlug_getLast_not_dash h rfl

/-- C7 witness: slugifying `"-Hi  9!"` gives `"hi-9"`, a fixed point of
the slugification with the stated shape. -/
theorem claimC7_witness :
    blurSlug ['-', 'H', 'i', ' ', ' ', '9', '!'] = ['h', 'i', '-', '9'] ∧
    blurSlug (blurSlug ['-', 'H', 'i', ' ', ' ', '9', '!']) =
      blurSlug ['-', 'H', 'i', ' ', ' ', '9', '!'] ∧
    (blurSlug ['-', 'H', 'i', ' ', ' ', '9', '!']).head? ≠ some '-' :=
  ⟨by decide, (claimC7_spec ['-', 'H', 'i', ' ', ' ', '9', '!']).1,
    (claimC7_spec ['-', 'H', 'i', ' ', ' ', '9', '!']).2.2.1⟩

/-! ## C2: the two-state wizard -/

/-- C2: the dialog renders the name form exactly when the `step` query
parameter (default `"name"`) equals `"name"` and the metadata form for
every other value; there are exactly two rendered forms, and the step
only moves to `"metadata"` when the name-step mutation settles (with data
or with an error) and back to `"name"` via the Back button — the submit
handlers never change it. -/
theorem claimC2_spec (st : DialogState) (data : Option MetaResponse) (login : String)
    (res : Option SubmitResponse) (msg : String) :
    (∀ q : String, renderedForm q = RenderedForm.nameForm ↔ q = "name") ∧
    (∀ q : String,
      renderedForm q = RenderedForm.nameForm ∨ renderedForm q = RenderedForm.metadataForm) ∧
    stepQueryDefault = "name" ∧
    (data.isSome = true → (onNameNextSuccess data login st).step = "metadata") ∧
    (data = none → onNameNextSuccess data login st = st) ∧
    (onNameNextError login st).step = "metadata" ∧
    (onBackClick st).step = "name" ∧
    (submitOnSuccess res st).1.step = st.step ∧
    (submitOnError msg st).step = st.step := by
  refine ⟨?_, ?_, rfl, ?_, ?_, rfl, rfl, ?_, rfl⟩
  · intro q
    constructor
    · intro h
      by_contra hq
      simp [renderedForm, hq] at h
    · intro h
      simp [renderedForm, h]
  · intro q
    by_cases hq : q = "name" <;> simp [renderedForm, hq]
  · intro h
    cases data with
    | none => simp at h
    | some d => rfl
  · intro h
    subst h
    rfl
  · cases res with
    | none => rfl
    | some r => rfl

/-- C2 witness: the two concrete step values render the two forms, and
Back returns to the name step. -/
theorem claimC2_witness :
    renderedForm "name" = RenderedForm.nameForm ∧
    renderedForm "metadata" = RenderedForm.metadataForm ∧
    (onBackClick ⟨"metadata", true, ⟨"", "", ""⟩, none⟩).step = "name" :=
  ⟨((claimC2_spec ⟨"name", true, ⟨"", "", ""⟩, none⟩ none "l" none "m").1 "name").mpr rfl,
    by decide,
    (claimC2_spec ⟨"metadata", true, ⟨"", "", ""⟩, none⟩ none "l" none "m").2.2.2.2.2.2.1⟩

/-! ## C3: authentication gating of the two mutations -/

/-- C3: with no session user both mutation functions invoke
`signIn("github")` and return `undefined` without any HTTP request; the
backend request (metadata lookup or submit POST) happens exactly when a
session user exists. -/
theorem claimC3_spec (user : Option SessionUser) (name : String) (resp : MetaResponse)
    (v : SubmitValues) (value : String) (sresp : Except String SubmitResponse) :
    (user = none →
      onNameNextFn none name resp = ([Effect.signIn "github"], none) ∧
      onSubmitFn none v value sresp = ([Effect.signIn "github"], Except.ok none)) ∧
    ((∃ e ∈ (onNameNextFn user name resp).1, isHttpRequest e = true) ↔ user ≠ none) ∧
    ((∃ e ∈ (onSubmitFn user v value sresp).1, isHttpRequest e = true) ↔ user ≠ none) := by
  refine ⟨fun _ => ⟨rfl, rfl⟩, ?_, ?_⟩
  · cases user with
    | none => simp [onNameNextFn, isHttpRequest]
    | some u => simp [onNameNextFn, isHttpRequest]
  · cases user with
    | none => simp [onSubmitFn, isHttpRequest]
    | some u => simp [onSubmitFn, isHttpRequest]

/-- C3 witness: the signed-out shapes of both mutation functions. -/
theorem claimC3_witness :
    onNameNextFn none "star" ⟨[], [], []⟩ = ([Effect.signIn "github"], none) ∧
    onSubmitFn none ⟨"star", "", "", ""⟩ "v" (Except.error "e") =
      ([Effect.signIn "github"], Except.ok none) :=
  (claimC3_spec none "star" ⟨[], [], []⟩ ⟨"star", "", "", ""⟩ "v" (Except.error "e")).1 rfl

/-! ## C4: the submit success handler -/

/-- C4: on a successful submission response the handler closes the dialog
(`open := false`) and opens, in a new tab, the existing pull-request url
when it is defined and the creation url otherwise. -/
theorem claimC4_spec (r : SubmitResponse) (st : DialogState) :
    (submitOnSuccess (some r) st).1 = { st with openDialog := false } ∧
    (∀ e, r.pullRequestExistingUrl = some e →
      (submitOnSuccess (some r) st).2 = [Effect.openUrl e "_blank"]) ∧
    (r.pullRequestExistingUrl = none →
      (submitOnSuccess (some r) st).2 = [Effect.openUrl r.pullRequestCreationUrl "_blank"]) := by
  refine ⟨rfl, ?_, ?_⟩
  · intro e he
    simp [submitOnSuccess, he]
  · intro he
    simp [submitOnSuccess, he]

/-- C4 witness: with an existing pull-request url the handler opens it
and the dialog is closed. -/
theorem claimC4_witness :
    (submitOnSuccess (some ⟨true, "", "c", some "e"⟩)
        ⟨"metadata", true, ⟨"", "", ""⟩, none⟩).2 = [Effect.openUrl "e" "_blank"] ∧
    (submitOnSuccess (some ⟨true, "", "c", some "e"⟩)
        ⟨"metadata", true, ⟨"", "", ""⟩, none⟩).1.openDialog = false :=
  ⟨(claimC4_spec ⟨true, "", "c", some "e"⟩ ⟨"metadata", true, ⟨"", "", ""⟩, none⟩).2.1 "e" rfl,
    by decide⟩

/-! ## C5: the metadata pre-fill only writes empty fields -/

/-- C5: when the metadata lookup succeeds, each of the categories, tags
and contributors fields is written from the response exactly when it is
currently empty; a non-empty field is left unchanged. -/
theorem claimC5_spec (d : MetaResponse) (login : String) (st : DialogState) :
    (st.metadataValues.categories ≠ "" →
      (onNameNextSuccess (some d) login st).metadataValues.categories =
        st.metadataValues.categories) ∧
    (st.metadataValues.categories = "" →
      (onNameNextSuccess (some d) login st).metadataValues.categories =
        joinLines d.categories) ∧
    (st.metadataValues.tags ≠ "" →
      (onNameNextSuccess (some d) login st).metadataValues.tags = st.metadataValues.tags) ∧
    (st.metadataValues.tags = "" →
      (onNameNextSuccess (some d) login st).metadataValues.tags = joinLines d.tags) ∧
    (st.metadataValues.contributors ≠ "" →
      (onNameNextSuccess (some d) login st).metadataValues.contributors =
        st.metadataValues.contributors) ∧
    (st.metadataValues.contributors = "" →
      (onNameNextSuccess (some d) login st).metadataValues.contributors =
        joinLines (dedupeTruthy (d.contributors ++ [login]))) := by
  refine ⟨?_, ?_, ?_, ?_, ?_, ?_⟩ <;> intro h <;> simp [onNameNextSuccess, h]

/-- C5 witness: a non-empty categories field survives the pre-fill while
the empty tags field is filled from the response. -/
theorem claimC5_witness :
    (onNameNextSuccess (some ⟨["c1"], ["t1"], ["u1"]⟩) "me"
        ⟨"name", true, ⟨"keep", "", ""⟩, none⟩).metadataValues.categories = "keep" ∧
    (onNameNextSuccess (some ⟨["c1"], ["t1"], ["u1"]⟩) "me"
        ⟨"name", true, ⟨"keep", "", ""⟩, none⟩).metadataValues.tags = "t1" :=
  ⟨(claimC5_spec ⟨["c1"], ["t1"], ["u1"]⟩ "me"
      ⟨"name", true, ⟨"keep", "", ""⟩, none⟩).1 (by decide), by decide⟩

/-! ## C8: the submission body -/

/-- C8: the submit POST carries exactly the body whose contributors, tags
and categories are the corresponding free-text fields split on newlines
with each entry trimmed, together with the name and the dialog's `value`
prop. -/
theorem claimC8_spec (u : SessionUser) (v : SubmitValues) (value : String)
    (resp : Except String SubmitResponse) :
    (onSubmitFn (some u) v value resp).1 = [Effect.postSubmit (submitBody v value)] ∧
    (submitBody v value).contributors = (v.contributors.splitOn "\n").map (fun t => t.trim) ∧
    (submitBody v value).tags = (v.tags.splitOn "\n").map (fun t => t.trim) ∧
    (submitBody v value).categories = (v.categories.splitOn "\n").map (fun t => t.trim) ∧
    (submitBody v value).name = v.name ∧
    (submitBody v value).value = value :=
  ⟨rfl, rfl, rfl, rfl, rfl, rfl⟩

/-! ## C9: the branch field is optional and unconstrained -/

/-- C9: the branch field contributes no validation issue, the schema's
outcome is independent of the branch value (in particular it validates
with the branch absent or empty whenever it validates at all), and a
present branch is passed through unchanged. -/
theorem claimC9_spec (n : List Char) (b : Option String) :
    branchIssues b = [] ∧
    (validateNameStep ⟨n, b⟩).isOk = (validateNameStep ⟨n, none⟩).isOk ∧
    (∀ out, validateNameStep ⟨n, b⟩ = Except.ok out → out.branch = b) := by
  refine ⟨rfl, ?_, ?_⟩
  · by_cases h : nameIssues n = [] <;>
      simp [validateNameStep, branchIssues, h, Except.isOk, Except.toBool]
  · intro out hout
    by_cases h : nameIssues n = []
    · simp only [validateNameStep, branchIssues, List.append_nil, h, if_true,
        Except.ok.injEq] at hout
      rw [← hout]
    · simp [validateNameStep, branchIssues, h] at hout

/-- C9 witness: a valid name with a present branch validates like the
same name with no branch, and the branch is passed through. -/
theorem claimC9_witness :
    (validateNameStep ⟨['a', 'b'], some "feature"⟩).isOk =
      (validateNameStep ⟨['a', 'b'], none⟩).isOk ∧
    (⟨['a', 'b'], some "feature"⟩ : NameStepParsed).branch = some "feature" :=
  ⟨(claimC9_spec ['a', 'b'] (some "feature")).2.1,
    (claimC9_spec ['a', 'b'] (some "feature")).2.2 ⟨['a', 'b'], some "feature"⟩ (by rfl)⟩

/-! ## C10: the submit error path -/

/-- C10: with a session user, a non-ok response status makes the mutation
reject with the response text and a network failure makes it reject with
that error; the error handler only sets `root.serverError` to the message
(or the fallback when the message is empty), leaving the dialog open
state, the step and the form values unchanged, and no url is opened. -/
theorem claimC10_spec (u : SessionUser) (v : SubmitValues) (value : String)
    (st : DialogState) :
    (∀ r : SubmitResponse, r.ok = false →
      (onSubmitFn (some u) v value (Except.ok r)).2 = Except.error r.text) ∧
    (∀ e : String, (onSubmitFn (some u) v value (Except.error e)).2 = Except.error e) ∧
    (∀ msg : String,
      (submitOnError msg st).metadataServerError =
        some (if msg = "" then submitErrorFallback else msg) ∧
      (submitOnError msg st).openDialog = st.openDialog ∧
      (submitOnError msg st).step = st.step ∧
      (submitOnError msg st).metadataValues = st.metadataValues) ∧
    (∀ resp : Except String SubmitResponse, ∀ e ∈ (onSubmitFn (some u) v value resp).1,
      ∀ url tgt, e ≠ Effect.openUrl url tgt) := by
  refine ⟨?_, fun e => rfl, fun msg => ⟨rfl, rfl, rfl, rfl⟩, ?_⟩
  · intro r hr
    simp [onSubmitFn, hr]
  · intro resp e he url tgt
    simp only [onSubmitFn, List.mem_singleton] at he
    subst he
    simp

/-- C10 witness: a rejected fetch propagates its message, and the empty
message is replaced by the fallback. -/
theorem claimC10_witness :
    (onSubmitFn (some ⟨"me"⟩) ⟨"n", "c", "t", "u"⟩ "v" (Except.error "boom")).2 =
      Except.error "boom" ∧
    (submitOnError "" ⟨"metadata", true, ⟨"", "", ""⟩, none⟩).metadataServerError =
      some (if "" = "" then submitErrorFallback else "") ∧
    (submitOnError "" ⟨"metadata", true, ⟨"", "", ""⟩, none⟩).metadataServerError =
      some "An error occurred while submitting the form." :=
  ⟨(claimC10_spec ⟨"me"⟩ ⟨"n", "c", "t", "u"⟩ "v"
      ⟨"metadata", true, ⟨"", "", ""⟩, none⟩).2.1 "boom",
    ((claimC10_spec ⟨"me"⟩ ⟨"n", "c", "t", "u"⟩ "v"
      ⟨"metadata", true, ⟨"", "", ""⟩, none⟩).2.2.1 "").1,
    by decide⟩
